import Mathlib

set_option maxRecDepth 10000

/-!
Shallow embedding of the HTTPCrypt core of the rspamd client library
(`src/protocol/encryption.rs`, `src/config.rs`), together with the
cryptographic primitives it calls (ChaCha20/HChaCha20/XChaCha20,
Poly1305, the NaCl-style secretbox composition, curve25519 Montgomery
scalar multiplication, BLAKE2b-512 and the rspamd base32 codec).
Bytes are modelled as `List Nat` (each element a byte value), machine
words as `Nat` reduced modulo the word size.
-/

namespace RspamdClient

/-! ## Byte and word utilities -/

/-- Little-endian value of a byte list: the head is the least significant byte. -/
def bytesToNatLE (l : List Nat) : Nat :=
  l.foldr (fun b acc => b + 256 * acc) 0

/-- `k` little-endian bytes of `n`. -/
def natToBytesLE : Nat → Nat → List Nat
  | 0, _ => []
  | k + 1, n => n % 256 :: natToBytesLE k (n / 256)

/-- Group a byte list into 32-bit little-endian words (incomplete tail dropped). -/
def bytesToWords32 : List Nat → List Nat
  | a :: b :: c :: d :: rest =>
      (a + 256 * b + 65536 * c + 16777216 * d) :: bytesToWords32 rest
  | _ => []

/-- Serialize each 32-bit word as 4 little-endian bytes. -/
def wordsToBytes32 (ws : List Nat) : List Nat :=
  ws.foldr (fun w acc => natToBytesLE 4 w ++ acc) []

/-- Addition modulo 2^32. -/
def add32 (a b : Nat) : Nat := (a + b) % 4294967296

/-- Left-rotation of a 32-bit word. -/
def rotl32 (x n : Nat) : Nat :=
  ((x <<< n) ||| (x >>> (32 - n))) % 4294967296

/-! ## ChaCha20 core (as implemented by the `chacha20` crate) -/

/-- One ChaCha quarter round acting on state positions `a b c d`. -/
def quarterRound (s : List Nat) (a b c d : Nat) : List Nat :=
  let sa := add32 (s.getD a 0) (s.getD b 0)
  let sd := rotl32 ((s.getD d 0) ^^^ sa) 16
  let sc := add32 (s.getD c 0) sd
  let sb := rotl32 ((s.getD b 0) ^^^ sc) 12
  let sa' := add32 sa sb
  let sd' := rotl32 (sd ^^^ sa') 8
  let sc' := add32 sc sd'
  let sb' := rotl32 (sb ^^^ sc') 7
  (((s.set a sa').set b sb').set c sc').set d sd'

/-- One ChaCha double round: a column round followed by a diagonal round. -/
def doubleRound (s : List Nat) : List Nat :=
  let s := quarterRound s 0 4 8 12
  let s := quarterRound s 1 5 9 13
  let s := quarterRound s 2 6 10 14
  let s := quarterRound s 3 7 11 15
  let s := quarterRound s 0 5 10 15
  let s := quarterRound s 1 6 11 12
  let s := quarterRound s 2 7 8 13
  quarterRound s 3 4 9 14

/-- Iterate `n` ChaCha double rounds. -/
def chachaRounds : Nat → List Nat → List Nat
  | 0, s => s
  | n + 1, s => chachaRounds n (doubleRound s)

/-- The four ChaCha constant words ("expand 32-byte k"). -/
def chachaConsts : List Nat := [1634760805, 857760878, 2036477234, 1797285236]

/-- HChaCha20 with 10 double rounds (`hchacha::<U10>` of the `chacha20` crate):
no feed-forward; the output is state words 0..3 and 12..15. -/
def hchacha (key inp : List Nat) : List Nat :=
  let st := chachaConsts ++ bytesToWords32 key ++ bytesToWords32 inp
  let s := chachaRounds 10 st
  wordsToBytes32 (s.take 4 ++ s.drop 12)

/-- One 64-byte ChaCha20 (IETF, 32-bit counter) keystream block. -/
def chachaBlock (key : List Nat) (counter : Nat) (nonce12 : List Nat) : List Nat :=
  let init := chachaConsts ++ bytesToWords32 key ++ counter :: bytesToWords32 nonce12
  wordsToBytes32 (List.zipWith add32 (chachaRounds 10 init) init)

/-- Concatenation of `fuel` ChaCha20 keystream blocks starting at counter `ctr`. -/
def chachaKeystreamAux (key nonce12 : List Nat) : Nat → Nat → List Nat
  | _, 0 => []
  | ctr, f + 1 => chachaBlock key ctr nonce12 ++ chachaKeystreamAux key nonce12 (ctr + 1) f

/-- The first `n` bytes of the XChaCha20 keystream: the subkey is
`HChaCha20(key, nonce[0..16])` and the ChaCha20 nonce is `0^4 ++ nonce[16..24]`,
with the block counter starting at 0 (as in the `chacha20` crate's `XChaCha20`). -/
def xchachaKeystream (key nonce24 : List Nat) (n : Nat) : List Nat :=
  let sub := hchacha key (nonce24.take 16)
  let n12 := 0 :: 0 :: 0 :: 0 :: nonce24.drop 16
  (chachaKeystreamAux sub n12 0 (n / 64 + 1)).take n

/-! ## Poly1305 (`poly1305` crate, `compute_unpadded`) -/

/-- The Poly1305 prime 2^130 - 5. -/
def p1305 : Nat := 1361129467683753853853498429727072845819

/-- Accumulate 16-byte chunks of `msg` into the Poly1305 state; `fuel` bounds
the recursion (any value at least `msg.length` is exact). -/
def polyBlocks (r : Nat) : Nat → List Nat → Nat → Nat
  | 0, _, acc => acc
  | _, [], acc => acc
  | fuel + 1, msg, acc =>
      let chunk := msg.take 16
      let n := bytesToNatLE chunk + 2 ^ (8 * chunk.length)
      polyBlocks r fuel (msg.drop 16) ((acc + n) * r % p1305)

/-- Poly1305 MAC of `msg` under the 32-byte key `key32` (r clamped, unpadded). -/
def poly1305 (key32 msg : List Nat) : List Nat :=
  let r := bytesToNatLE (key32.take 16) &&& 21267647620597763993911028882763415551
  let s := bytesToNatLE ((key32.drop 16).take 16)
  let acc := polyBlocks r msg.length msg 0
  natToBytesLE 16 ((acc + s) % 340282366920938463463374607431768211456)

/-! ## XChaCha20Poly1305 secretbox (`crypto_secretbox` crate, NaCl layout):
the Poly1305 key is the first 32 keystream bytes, the message is XORed
against the keystream from byte 32 on, and the tag precedes the ciphertext. -/

/-- Detached seal: returns `(tag, ciphertext)`. -/
def secretbox_seal (key nonce pt : List Nat) : List Nat × List Nat :=
  let ks := xchachaKeystream key nonce (32 + pt.length)
  let macKey := ks.take 32
  let ct := List.zipWith (· ^^^ ·) pt (ks.drop 32)
  (poly1305 macKey ct, ct)

/-- Verify a detached tag over `ct` and decrypt on success. -/
def secretbox_openParts (key nonce tag ct : List Nat) : Option (List Nat) :=
  let ks := xchachaKeystream key nonce (32 + ct.length)
  let macKey := ks.take 32
  if poly1305 macKey ct = tag then some (List.zipWith (· ^^^ ·) ct (ks.drop 32))
  else none

/-- Open a combined `tag ++ ciphertext` buffer (the crate's `decrypt`,
which splits the 16-byte tag off the front). -/
def secretbox_open (key nonce tagct : List Nat) : Option (List Nat) :=
  if tagct.length < 16 then none
  else secretbox_openParts key nonce (tagct.take 16) (tagct.drop 16)

/-! ## The rspamd base32 codec (`rspamd_base32` crate): the fixed alphabet
`ybndrfg8ejkmcpqxot1uwisza345h769`, bits taken least-significant first,
5 bits per symbol, dangling bits dropped on decode. -/

/-- The protocol's base32 alphabet. -/
def b32alphabet : List Char :=
  ['y', 'b', 'n', 'd', 'r', 'f', 'g', '8', 'e', 'j', 'k', 'm', 'c', 'p', 'q', 'x',
   'o', 't', '1', 'u', 'w', 'i', 's', 'z', 'a', '3', '4', '5', 'h', '7', '6', '9']

/-- Decode table: 5-bit value of a symbol byte, `none` for an invalid symbol. -/
def b32val (c : Nat) : Option Nat :=
  match c with
  | 121 => some 0 | 98 => some 1 | 110 => some 2 | 100 => some 3
  | 114 => some 4 | 102 => some 5 | 103 => some 6 | 56 => some 7
  | 101 => some 8 | 106 => some 9 | 107 => some 10 | 109 => some 11
  | 99 => some 12 | 112 => some 13 | 113 => some 14 | 120 => some 15
  | 111 => some 16 | 116 => some 17 | 49 => some 18 | 117 => some 19
  | 119 => some 20 | 105 => some 21 | 115 => some 22 | 122 => some 23
  | 97 => some 24 | 51 => some 25 | 52 => some 26 | 53 => some 27
  | 104 => some 28 | 55 => some 29 | 54 => some 30 | 57 => some 31
  | _ => none

/-- Little-endian accumulation of 5-bit symbol values: returns the combined
value and the number of symbols, or `none` on an invalid symbol. -/
def b32DecodeNum : List Nat → Option (Nat × Nat)
  | [] => some (0, 0)
  | c :: rest =>
      match b32val c, b32DecodeNum rest with
      | some v, some (n, k) => some (v + 32 * n, k + 1)
      | _, _ => none

/-- rspamd base32 decode of a symbol-byte list. -/
def b32decode (l : List Nat) : Option (List Nat) :=
  (b32DecodeNum l).map fun nk => natToBytesLE (5 * nk.2 / 8) nk.1

/-- Successive 5-bit groups of `n`, least significant first, as alphabet symbols. -/
def b32EncodeAux : Nat → Nat → List Char
  | 0, _ => []
  | k + 1, n => b32alphabet.getD (n % 32) 'y' :: b32EncodeAux k (n / 32)

/-- rspamd base32 encode of a byte list, as characters. -/
def b32encodeChars (bs : List Nat) : List Char :=
  b32EncodeAux ((8 * bs.length + 4) / 5) (bytesToNatLE bs)

/-- rspamd base32 encode of a byte list, as a string. -/
def b32encode (bs : List Nat) : String := ⟨b32encodeChars bs⟩

/-! ## curve25519 Montgomery scalar multiplication (`curve25519_dalek`) -/

/-- The curve25519 field prime 2^255 - 19. -/
def pF : Nat := 2 ^ 255 - 19

/-- The order of the curve25519 base-point group. -/
def ellOrder : Nat := 2 ^ 252 + 27742317777372353535851937790883648493

/-- Fuel-driven square-and-multiply modular exponentiation. -/
def powModAux : Nat → Nat → Nat → Nat → Nat → Nat
  | 0, _, _, _, acc => acc
  | f + 1, b, e, m, acc =>
      if e % 2 = 1 then powModAux f (b * b % m) (e / 2) m (acc * b % m)
      else powModAux f (b * b % m) (e / 2) m acc

/-- `b ^ e % m` for exponents below 2^256. -/
def powMod (b e m : Nat) : Nat := powModAux 256 (b % m) e m 1

/-- Montgomery ladder steps over bits `c-1 .. 0` of the scalar `k`; the state is
`(x2, z2, x3, z3, swap)` of projective u-line coordinates modulo `pF`. -/
def ladderAux (k u : Nat) : Nat → Nat × Nat × Nat × Nat × Nat → Nat × Nat × Nat × Nat × Nat
  | 0, st => st
  | c + 1, (x2, z2, x3, z3, swap) =>
      let kt := (k >>> c) &&& 1
      let sw := swap ^^^ kt
      let st := if sw = 1 then (x3, z3, x2, z2) else (x2, z2, x3, z3)
      match st with
      | (x2, z2, x3, z3) =>
        let A := (x2 + z2) % pF
        let AA := A * A % pF
        let B := (x2 + pF - z2) % pF
        let BB := B * B % pF
        let E := (AA + pF - BB) % pF
        let C := (x3 + z3) % pF
        let D := (x3 + pF - z3) % pF
        let DA := D * A % pF
        let CB := C * B % pF
        let xs := (DA + CB) % pF
        let zs := (DA + pF - CB) % pF
        ladderAux k u c
          (AA * BB % pF,
           E * ((AA + 121665 * E) % pF) % pF,
           xs * xs % pF,
           u % pF * (zs * zs % pF) % pF,
           kt)

/-- u-coordinate of `[k]P` for the point with u-coordinate `u` (x-only ladder,
as performed by `Scalar * MontgomeryPoint` in `curve25519_dalek`). -/
def montLadder (k u : Nat) : Nat :=
  match ladderAux k u 255 (1, 0, u % pF, 1, 0) with
  | (x2, z2, x3, z3, swap) =>
      let xz := if swap = 1 then (x3, z3) else (x2, z2)
      xz.1 * powMod xz.2 (pF - 2) pF % pF

/-- curve25519 secret-scalar clamping (`clamp_integer`): clear the low 3 bits
of byte 0, clear the top bit and set the second-highest bit of byte 31. -/
def clamp_integer (b : List Nat) : List Nat :=
  let b := b.set 0 ((b.getD 0 0) &&& 248)
  b.set 31 (((b.getD 31 0) &&& 127) ||| 64)

/-- `Scalar::from_bytes_mod_order`: the little-endian value reduced mod the group order. -/
def scalarFromBytesModOrder (b : List Nat) : Nat := bytesToNatLE b % ellOrder

/-- `FieldElement::from_bytes`: the little-endian value with the top bit masked. -/
def fieldFromBytes (b : List Nat) : Nat := bytesToNatLE b % 2 ^ 255

/-! ## BLAKE2b-512 (`blake2b_simd::blake2b`) -/

/-- The BLAKE2b initialization vector. -/
def blakeIV : List Nat :=
  [0x6a09e667f3bcc908, 0xbb67ae8584caa73b, 0x3c6ef372fe94f82b, 0xa54ff53a5f1d36f1,
   0x510e527fade682d1, 0x9b05688c2b3e6c1f, 0x1f83d9abfb41bd6b, 0x5be0cd19137e2179]

/-- The BLAKE2b message schedule. -/
def blakeSigma : List (List Nat) :=
  [[0, 1, 2, 3, 4, 5, 6, 7, 8, 9, 10, 11, 12, 13, 14, 15],
   [14, 10, 4, 8, 9, 15, 13, 6, 1, 12, 0, 2, 11, 7, 5, 3],
   [11, 8, 12, 0, 5, 2, 15, 13, 10, 14, 3, 6, 7, 1, 9, 4],
   [7, 9, 3, 1, 13, 12, 11, 14, 2, 6, 5, 10, 4, 0, 15, 8],
   [9, 0, 5, 7, 2, 4, 10, 15, 14, 1, 11, 12, 6, 8, 3, 13],
   [2, 12, 6, 10, 0, 11, 8, 3, 4, 13, 7, 5, 15, 14, 1, 9],
   [12, 5, 1, 15, 14, 13, 4, 10, 0, 7, 6, 3, 9, 2, 8, 11],
   [13, 11, 7, 14, 12, 1, 3, 9, 5, 0, 15, 4, 8, 6, 2, 10],
   [6, 15, 14, 9, 11, 3, 0, 8, 12, 2, 13, 7, 1, 4, 10, 5],
   [10, 2, 8, 4, 7, 6, 1, 5, 15, 11, 9, 14, 3, 12, 13, 0],
   [0, 1, 2, 3, 4, 5, 6, 7, 8, 9, 10, 11, 12, 13, 14, 15],
   [14, 10, 4, 8, 9, 15, 13, 6, 1, 12, 0, 2, 11, 7, 5, 3]]

/-- Right-rotation of a 64-bit word. -/
def rotr64 (x n : Nat) : Nat :=
  ((x >>> n) ||| (x <<< (64 - n))) % 18446744073709551616

/-- Group a byte list into 64-bit little-endian words. -/
def bytesToWords64 : List Nat → List Nat
  | b0 :: b1 :: b2 :: b3 :: b4 :: b5 :: b6 :: b7 :: rest =>
      bytesToNatLE [b0, b1, b2, b3, b4, b5, b6, b7] :: bytesToWords64 rest
  | _ => []

/-- Serialize each 64-bit word as 8 little-endian bytes. -/
def wordsToBytes64 (ws : List Nat) : List Nat :=
  ws.foldr (fun w acc => natToBytesLE 8 w ++ acc) []

/-- The BLAKE2b G mixing function on working-vector positions `a b c d`. -/
def blakeG (v : List Nat) (a b c d x y : Nat) : List Nat :=
  let va := (v.getD a 0 + v.getD b 0 + x) % 18446744073709551616
  let vd := rotr64 ((v.getD d 0) ^^^ va) 32
  let vc := (v.getD c 0 + vd) % 18446744073709551616
  let vb := rotr64 ((v.getD b 0) ^^^ vc) 24
  let va' := (va + vb + y) % 18446744073709551616
  let vd' := rotr64 (vd ^^^ va') 16
  let vc' := (vc + vd') % 18446744073709551616
  let vb' := rotr64 (vb ^^^ vc') 63
  (((v.set a va').set b vb').set c vc').set d vd'

/-- One BLAKE2b round with message words `m` and schedule row `s`. -/
def blakeRound (m v s : List Nat) : List Nat :=
  let g := fun i => m.getD (s.getD i 0) 0
  let v := blakeG v 0 4 8 12 (g 0) (g 1)
  let v := blakeG v 1 5 9 13 (g 2) (g 3)
  let v := blakeG v 2 6 10 14 (g 4) (g 5)
  let v := blakeG v 3 7 11 15 (g 6) (g 7)
  let v := blakeG v 0 5 10 15 (g 8) (g 9)
  let v := blakeG v 1 6 11 12 (g 10) (g 11)
  let v := blakeG v 2 7 8 13 (g 12) (g 13)
  blakeG v 3 4 9 14 (g 14) (g 15)

/-- The BLAKE2b compression function (12 rounds). -/
def blakeCompress (h block : List Nat) (t : Nat) (last : Bool) : List Nat :=
  let m := bytesToWords64 block
  let v := h ++ blakeIV
  let v := v.set 12 ((v.getD 12 0) ^^^ (t % 18446744073709551616))
  let v := v.set 13 ((v.getD 13 0) ^^^ (t / 18446744073709551616))
  let v := if last then v.set 14 ((v.getD 14 0) ^^^ 0xFFFFFFFFFFFFFFFF) else v
  let v := blakeSigma.foldl (fun v s => blakeRound m v s) v
  (List.range 8).map fun i => h.getD i 0 ^^^ v.getD i 0 ^^^ v.getD (i + 8) 0

/-- Process 128-byte message blocks; the final (possibly short) block is
zero-padded and compressed with the last-block flag. -/
def blake2bAux : Nat → List Nat → List Nat → Nat → List Nat
  | 0, h, _, _ => h
  | f + 1, h, msg, prev =>
      if msg.length ≤ 128 then
        blakeCompress h (msg ++ List.replicate (128 - msg.length) 0) (prev + msg.length) true
      else
        blake2bAux f (blakeCompress h (msg.take 128) (prev + 128) false) (msg.drop 128) (prev + 128)

/-- BLAKE2b-512 (unkeyed, 64-byte digest): parameter word `0x01010040`. -/
def blake2b (msg : List Nat) : List Nat :=
  let h0 := blakeIV.set 0 ((blakeIV.getD 0 0) ^^^ 0x01010040)
  wordsToBytes64 (blake2bAux (msg.length + 1) h0 msg 0)

/-! ## Error type (`src/error.rs`) and evaluation outcomes.
`Outcome` distinguishes a Rust panic from a returned `Result`:
`panics` models an aborting `unwrap`/out-of-bounds index. -/

inductive RspamdError where
  | HttpError (msg : String)
  | ConfigError (msg : String)
  | Unknown
  | EncryptionError (msg : String)
deriving DecidableEq

inductive Outcome (α : Type) where
  | panics
  | err (e : RspamdError)
  | ok (a : α)
deriving DecidableEq

/-! ## The HTTPCrypt operations (`src/protocol/encryption.rs`) -/

/-- Bytes of a string (`str::as_bytes`; the modelled inputs are ASCII). -/
def strBytes (s : String) : List Nat := s.data.map Char.toNat

/-- `make_key_header`: decode the remote key, BLAKE2b-hash it, base32-encode
the first `SHORT_KEY_ID_SIZE = 5` digest bytes and append `"=" ++ local_pk`. -/
def make_key_header (remote_pk local_pk : String) : Except RspamdError String :=
  match b32decode (strBytes remote_pk) with
  | none => .error (.EncryptionError "Base32 decode failed")
  | some bs => .ok ⟨b32encodeChars ((blake2b bs).take 5) ++ '=' :: local_pk.data⟩

/-- `rspamd_x25519_scalarmult`: base32-decode the remote public key (decode
failure is returned as an error), convert the 32 bytes into a Montgomery point
(`try_into().unwrap()` panics when the decoded length is not 32), and multiply
it by the clamped local secret reduced mod the group order. -/
def rspamd_x25519_scalarmult (remote_pk local_sk : List Nat) : Outcome (List Nat) :=
  match b32decode remote_pk with
  | none => .err (.EncryptionError "Base32 decode failed")
  | some bs =>
      if bs.length = 32 then
        .ok (natToBytesLE 32
          (montLadder (scalarFromBytesModOrder (clamp_integer local_sk)) (fieldFromBytes bs)))
      else .panics

/-- `rspamd_x25519_ecdh`: one HChaCha20 iteration on the point and a zeroed nonce. -/
def rspamd_x25519_ecdh (point : List Nat) : List Nat :=
  hchacha point (List.replicate 16 0)

/-- `encrypt_inplace`: derive the shared secret, seal the plaintext with a
fresh nonce (passed here as an argument, as `OsRng` supplies it in the source)
and lay the buffer out as `nonce ++ tag ++ ciphertext`; returns the buffer and
the secretbox key. -/
def encrypt_inplace (plaintext recipient_public_key local_sk nonce : List Nat) :
    Outcome (List Nat × List Nat) :=
  match rspamd_x25519_scalarmult recipient_public_key local_sk with
  | .panics => .panics
  | .err e => .err e
  | .ok point =>
      let nm := rspamd_x25519_ecdh point
      let sealed := secretbox_seal nm nonce plaintext
      .ok (nonce ++ (sealed.1 ++ sealed.2), nm)

structure HTTPCryptEncrypted where
  body : List Nat
  peer_key : String
  secretbox : List Nat
deriving DecidableEq

/-- `SecretKey::public_key`: clamped scalar multiplication of the basepoint `u = 9`. -/
def secretKeyPublic (local_sk : List Nat) : List Nat :=
  natToBytesLE 32 (montLadder (bytesToNatLE (clamp_integer local_sk)) 9)

/-- `httpcrypt_encrypt`: build the pseudo-HTTP inner plaintext
(`POST url HTTP/1.1\n`, then one `k:v\n` line per header in order, then a
blank line, then the body) and seal it with `encrypt_inplace`; the local
ephemeral secret and the nonce stand in for the `OsRng` draws. -/
def httpcrypt_encrypt (url : String) (body : List Nat)
    (headers : List (List Nat × List Nat)) (peer_key local_sk nonce : List Nat) :
    Outcome HTTPCryptEncrypted :=
  let dest := strBytes "POST " ++ strBytes url ++ strBytes " HTTP/1.1\n"
    ++ headers.foldr (fun kv acc => kv.1 ++ 58 :: kv.2 ++ [10] ++ acc) []
    ++ [10] ++ body
  match encrypt_inplace dest peer_key local_sk nonce with
  | .panics => .panics
  | .err e => .err e
  | .ok dnm => .ok ⟨dnm.1, b32encode (secretKeyPublic local_sk), dnm.2⟩

/-- `httpcrypt_decrypt` (the `Vec`-returning revision in
`src/protocol/encryption.rs`): `&body[0..24]` panics when the body is shorter
than the nonce; otherwise the remainder `tag ++ ciphertext` is opened with the
secretbox, a verification failure becoming `EncryptionError "Cannot decrypt"`. -/
def httpcrypt_decrypt (body secret_box : List Nat) : Outcome (List Nat) :=
  if body.length < 24 then .panics
  else
    match secretbox_open secret_box (body.take 24) (body.drop 24) with
    | some pt => .ok pt
    | none => .err (.EncryptionError "Cannot decrypt")

/-- Modelled from the spec: the in-place, offset-returning `httpcrypt_decrypt`
revision that `backend/async_client.rs` and `backend/sync_client.rs` call
(`let decrypted_offset = httpcrypt_decrypt(body.as_mut(), sk)?`) is not present
under `src/`; per spec section 4.2 it splits `nonce = bytes[0:24]`,
`tag = bytes[24:40]`, `ciphertext = bytes[40:]`, verifies and decrypts
atomically, and on success returns the plaintext with the fixed offset 40. -/
def httpcrypt_decrypt_offset (body secret_box : List Nat) :
    Except RspamdError (List Nat × Nat) :=
  if body.length < 40 then .error (.EncryptionError "Cannot decrypt")
  else
    match secretbox_open secret_box (body.take 24) (body.drop 24) with
    | some pt => .ok (pt, 40)
    | none => .error (.EncryptionError "Cannot decrypt")

/-! ## `EnvelopeData` (`src/config.rs`), with `HashMap` modelled as an
association list without duplicate keys; `hmInsert` is `HashMap::insert`. -/

def hmInsert (m : List (String × String)) (k v : String) : List (String × String) :=
  if m.any (fun p => p.1 == k) then m.map (fun p => if p.1 == k then (k, v) else p)
  else m ++ [(k, v)]

structure EnvelopeData where
  from_ : Option String
  rcpt : List String
  ip : Option String
  user : Option String
  helo : Option String
  hostname : Option String
  file_path : Option String
  additional_headers : List (String × String)

/-- Insert an optional field under the given header name. -/
def optInsert (m : List (String × String)) (k : String) : Option String → List (String × String)
  | some v => hmInsert m k v
  | none => m

/-- `EnvelopeData::into_iter`: fold every optional field and then every
recipient into `additional_headers`, each recipient under the key `"Rcpt"`. -/
def EnvelopeData.into_iter (e : EnvelopeData) : List (String × String) :=
  let m := optInsert e.additional_headers "From" e.from_
  let m := optInsert m "IP" e.ip
  let m := optInsert m "User" e.user
  let m := optInsert m "Helo" e.helo
  let m := optInsert m "Hostname" e.hostname
  let m := optInsert m "File" e.file_path
  e.rcpt.foldl (fun m r => hmInsert m "Rcpt" r) m

/-! ## Concrete inputs used by the witnesses: the remote public key of the
repository's own test vectors, an all-zero local secret and nonce, and small
plaintexts. -/

def pkStr : String := "k4nz984k36xmcynm1hr9kdbn6jhcxf4ggbrb1quay7f88rpm9kay"

def exSk : List Nat := List.replicate 32 0

def exNonce : List Nat := List.replicate 24 0

def exPt : List Nat := [1, 2, 3]

def exUrl : String := "/checkv2"

def exHeaders : List (List Nat × List Nat) := [([67], [68])]

def exBody : List Nat := [97, 98, 99]

def exEnvelope : EnvelopeData := ⟨none, ["a", "b"], none, none, none, none, none, []⟩

/-- `EXPECTED_POINT` of the repository's `test_scalarmult`. -/
def expectedPoint : List Nat :=
  [95, 76, 225, 188, 0, 26, 146, 94, 70, 249, 90, 189, 35, 51, 1, 42, 9, 37, 94,
   254, 204, 55, 198, 91, 180, 90, 46, 217, 140, 226, 211, 90]

/-- `EXPECTED_NM` of the repository's `test_ecdh`. -/
def expectedNm : List Nat :=
  [61, 109, 220, 195, 100, 174, 127, 237, 148, 122, 154, 61, 165, 83, 93, 105,
   127, 166, 153, 112, 103, 224, 2, 200, 136, 243, 73, 51, 8, 163, 150, 7]

/-- The envelope and secretbox key produced by
`encrypt_inplace exPt (strBytes pkStr) exSk exNonce` (checked by `exEncEq`). -/
def exEnc : List Nat × List Nat :=
  ([0, 0, 0, 0, 0, 0, 0, 0, 0, 0, 0, 0, 0, 0, 0, 0, 0, 0, 0, 0, 0, 0, 0, 0,
    16, 160, 184, 10, 191, 123, 180, 168, 190, 212, 211, 27, 223, 162, 56, 40,
    129, 87, 186],
   expectedNm)

/-- The public key of the all-zero local secret (checked in `exOutEq`). -/
def exPk : List Nat :=
  [47, 229, 125, 163, 71, 205, 98, 67, 21, 40, 218, 172, 95, 187, 41, 7, 48, 255,
   246, 132, 175, 196, 207, 194, 237, 144, 153, 95, 88, 203, 59, 116]

/-- The value produced by
`httpcrypt_encrypt exUrl exBody exHeaders (strBytes pkStr) exSk exNonce`
(checked by `exOutEq`). -/
def exOut : HTTPCryptEncrypted :=
  ⟨[0, 0, 0, 0, 0, 0, 0, 0, 0, 0, 0, 0, 0, 0, 0, 0, 0, 0, 0, 0, 0, 0, 0, 0,
    140, 18, 250, 196, 170, 210, 107, 182, 79, 123, 163, 42, 159, 78, 128, 30,
    208, 26, 234, 201, 4, 225, 222, 109, 209, 122, 1, 195, 110, 177, 224, 222,
    169, 224, 57, 240, 234, 167, 24, 8, 252, 21, 70, 168, 92, 214, 232],
   "xj35zt6epsagwkyf4gm9i7gf8yc6x5uoxft9cbz7ocg9fcp35b7y", expectedNm⟩

/-! ## Length lemmas for the primitives -/

theorem natToBytesLE_length (k : Nat) : ∀ n, (natToBytesLE k n).length = k := by
  induction k with
  | zero => intro n; rfl
  | succ k ih => intro n; simp [natToBytesLE, ih]

theorem poly1305_length (key msg : List Nat) : (poly1305 key msg).length = 16 := by
  simp [poly1305, natToBytesLE_length]

theorem quarterRound_length (s : List Nat) (a b c d : Nat) :
    (quarterRound s a b c d).length = s.length := by
  simp [quarterRound]

theorem doubleRound_length (s : List Nat) : (doubleRound s).length = s.length := by
  simp [doubleRound, quarterRound_length]

theorem chachaRounds_length (n : Nat) : ∀ s : List Nat,
    (chachaRounds n s).length = s.length := by
  induction n with
  | zero => intro s; rfl
  | succ n ih => intro s; rw [chachaRounds, ih, doubleRound_length]

theorem bytesToWords32_length : ∀ l : List Nat, (bytesToWords32 l).length = l.length / 4
  | a :: b :: c :: d :: rest => by
      simp only [bytesToWords32, List.length_cons, bytesToWords32_length rest]
      omega
  | [] => rfl
  | [_] => by simp [bytesToWords32]
  | [_, _] => by simp [bytesToWords32]
  | [_, _, _] => by simp [bytesToWords32]

theorem wordsToBytes32_length : ∀ ws : List Nat, (wordsToBytes32 ws).length = 4 * ws.length
  | [] => rfl
  | w :: ws => by
      simp only [wordsToBytes32, List.foldr_cons, List.length_append, natToBytesLE_length,
        List.length_cons]
      have := wordsToBytes32_length ws
      simp only [wordsToBytes32] at this
      omega

theorem hchacha_length (key inp : List Nat) (hk : key.length = 32) (hi : inp.length = 16) :
    (hchacha key inp).length = 32 := by
  have hkw : (bytesToWords32 key).length = 8 := by rw [bytesToWords32_length, hk]
  have hiw : (bytesToWords32 inp).length = 4 := by rw [bytesToWords32_length, hi]
  simp [hchacha, wordsToBytes32_length, chachaRounds_length, chachaConsts, hkw, hiw]

theorem chachaBlock_length (key nonce12 : List Nat) (ctr : Nat)
    (hk : key.length = 32) (hn : nonce12.length = 12) :
    (chachaBlock key ctr nonce12).length = 64 := by
  have hkw : (bytesToWords32 key).length = 8 := by rw [bytesToWords32_length, hk]
  have hnw : (bytesToWords32 nonce12).length = 3 := by rw [bytesToWords32_length, hn]
  simp [chachaBlock, wordsToBytes32_length, chachaRounds_length, chachaConsts, hkw, hnw]

theorem chachaKeystreamAux_length (key nonce12 : List Nat)
    (hk : key.length = 32) (hn : nonce12.length = 12) :
    ∀ fuel ctr, (chachaKeystreamAux key nonce12 ctr fuel).length = 64 * fuel := by
  intro fuel
  induction fuel with
  | zero => intro ctr; rfl
  | succ f ih =>
      intro ctr
      rw [chachaKeystreamAux, List.length_append, chachaBlock_length key nonce12 ctr hk hn, ih]
      omega

theorem xchachaKeystream_length (key nonce24 : List Nat) (n : Nat)
    (hk : key.length = 32) (hn : nonce24.length = 24) :
    (xchachaKeystream key nonce24 n).length = n := by
  have hsub : (hchacha key (nonce24.take 16)).length = 32 :=
    hchacha_length _ _ hk (by simp [hn])
  have hn12 : (0 :: 0 :: 0 :: 0 :: nonce24.drop 16).length = 12 := by simp [hn]
  rw [xchachaKeystream, List.length_take,
    chachaKeystreamAux_length _ _ hsub hn12]
  omega

theorem secretbox_seal_ct_length (key nonce pt : List Nat)
    (hk : key.length = 32) (hn : nonce.length = 24) :
    (secretbox_seal key nonce pt).2.length = pt.length := by
  simp [secretbox_seal, xchachaKeystream_length _ _ _ hk hn]

/-! ## XOR involution and the secretbox round trip -/

theorem xor_zip_inv : ∀ p k : List Nat, p.length ≤ k.length →
    List.zipWith (· ^^^ ·) (List.zipWith (· ^^^ ·) p k) k = p
  | [], _, _ => by simp
  | a :: p, b :: k, h => by
      simp only [List.zipWith_cons_cons]
      rw [xor_zip_inv p k (by simpa using h), Nat.xor_assoc, Nat.xor_self, Nat.xor_zero]
  | _ :: _, [], h => by simp at h

theorem secretbox_roundtrip (key nonce pt : List Nat)
    (hk : key.length = 32) (hn : nonce.length = 24) :
    secretbox_open key nonce
      ((secretbox_seal key nonce pt).1 ++ (secretbox_seal key nonce pt).2) = some pt := by
  have htag : (secretbox_seal key nonce pt).1.length = 16 := by
    simp [secretbox_seal, poly1305_length]
  have hct : (secretbox_seal key nonce pt).2.length = pt.length :=
    secretbox_seal_ct_length key nonce pt hk hn
  have hks : (xchachaKeystream key nonce (32 + pt.length)).length = 32 + pt.length :=
    xchachaKeystream_length _ _ _ hk hn
  rw [secretbox_open, if_neg (by simp [htag]),
    List.take_left' htag, List.drop_left' htag]
  rw [secretbox_openParts]
  simp only [hct]
  have hcond : poly1305 ((xchachaKeystream key nonce (32 + pt.length)).take 32)
      (secretbox_seal key nonce pt).2 = (secretbox_seal key nonce pt).1 := by
    simp [secretbox_seal]
  rw [if_pos hcond]
  have : (secretbox_seal key nonce pt).2 =
      List.zipWith (· ^^^ ·) pt ((xchachaKeystream key nonce (32 + pt.length)).drop 32) := by
    simp [secretbox_seal]
  rw [this, xor_zip_inv]
  simp [hks]

/-! ## Inversion lemmas for the HTTPCrypt operations -/

theorem scalarmult_ok_length {r s p : List Nat}
    (h : rspamd_x25519_scalarmult r s = .ok p) : p.length = 32 := by
  unfold rspamd_x25519_scalarmult at h
  split at h
  · exact absurd h (by simp)
  · split at h
    · simp only [Outcome.ok.injEq] at h
      rw [← h, natToBytesLE_length]
    · exact absurd h (by simp)

theorem ecdh_length {p : List Nat} (hp : p.length = 32) :
    (rspamd_x25519_ecdh p).length = 32 :=
  hchacha_length _ _ hp (by simp)

/-- Opening an `encrypt_inplace` envelope with the returned secretbox key
recovers the plaintext (shared between the round-trip and framing claims). -/
theorem encrypt_then_decrypt (P rk sk nonce : List Nat) (out : List Nat × List Nat)
    (hn : nonce.length = 24)
    (henc : encrypt_inplace P rk sk nonce = .ok out) :
    httpcrypt_decrypt out.1 out.2 = .ok P := by
  simp only [encrypt_inplace] at henc
  split at henc
  · exact absurd henc (by simp)
  · exact absurd henc (by simp)
  case _ point heq =>
    simp only [Outcome.ok.injEq] at henc
    have hnm : (rspamd_x25519_ecdh point).length = 32 :=
      ecdh_length (scalarmult_ok_length heq)
    have h1 : out.1 = nonce ++ ((secretbox_seal (rspamd_x25519_ecdh point) nonce P).1 ++
        (secretbox_seal (rspamd_x25519_ecdh point) nonce P).2) := by rw [← henc]
    have h2 : out.2 = rspamd_x25519_ecdh point := by rw [← henc]
    rw [h1, h2, httpcrypt_decrypt, if_neg (by rw [List.length_append, hn]; omega),
      List.take_left' hn, List.drop_left' hn,
      secretbox_roundtrip _ _ _ hnm hn]

/-- Claim C1: decrypting the envelope produced by `encrypt_inplace` with the
same secretbox key via `httpcrypt_decrypt` returns exactly the original
plaintext bytes. -/
theorem c1_roundtrip (P rk sk nonce : List Nat) (out : List Nat × List Nat)
    (hn : nonce.length = 24)
    (henc : encrypt_inplace P rk sk nonce = .ok out) :
    httpcrypt_decrypt out.1 out.2 = .ok P :=
  encrypt_then_decrypt P rk sk nonce out hn henc

/-- Claim C2: a successful `encrypt_inplace` envelope is laid out as
`nonce(24) ++ tag(16) ++ ciphertext`, the tag being the Poly1305 MAC of the
ciphertext (tag before ciphertext, ciphertext as long as the plaintext). -/
theorem c2_layout (P rk sk nonce : List Nat) (out : List Nat × List Nat)
    (hn : nonce.length = 24)
    (henc : encrypt_inplace P rk sk nonce = .ok out) :
    ∃ tag ct, out.1 = nonce ++ tag ++ ct ∧ tag.length = 16 ∧ ct.length = P.length ∧
      tag = poly1305 ((xchachaKeystream out.2 nonce (32 + P.length)).take 32) ct := by
  simp only [encrypt_inplace] at henc
  split at henc
  · exact absurd henc (by simp)
  · exact absurd henc (by simp)
  case _ point heq =>
    simp only [Outcome.ok.injEq] at henc
    have hnm : (rspamd_x25519_ecdh point).length = 32 :=
      ecdh_length (scalarmult_ok_length heq)
    have h1 : out.1 = nonce ++ ((secretbox_seal (rspamd_x25519_ecdh point) nonce P).1 ++
        (secretbox_seal (rspamd_x25519_ecdh point) nonce P).2) := by rw [← henc]
    have h2 : out.2 = rspamd_x25519_ecdh point := by rw [← henc]
    refine ⟨(secretbox_seal (rspamd_x25519_ecdh point) nonce P).1,
      (secretbox_seal (rspamd_x25519_ecdh point) nonce P).2,
      by rw [h1, List.append_assoc], ?_, ?_, ?_⟩
    · simp [secretbox_seal, poly1305_length]
    · exact secretbox_seal_ct_length _ _ _ hnm hn
    · rw [h2]
      simp [secretbox_seal, secretbox_seal_ct_length _ _ _ hnm hn]

/-- Claim C3: for bodies of length at least 40, the offset-returning decrypt
splits them at byte 24 (nonce) and byte 40 (tag / ciphertext boundary), and on
successful verification returns the plaintext with the fixed offset 40; this
agrees with the `Vec`-returning `httpcrypt_decrypt` of
`src/protocol/encryption.rs` on the plaintext. -/
theorem c3_split_offset (body key : List Nat) (h : 40 ≤ body.length) :
    (httpcrypt_decrypt_offset body key =
      match secretbox_openParts key (body.take 24) ((body.drop 24).take 16) (body.drop 40) with
      | some pt => .ok (pt, 40)
      | none => .error (.EncryptionError "Cannot decrypt")) ∧
    (∀ pt, httpcrypt_decrypt_offset body key = .ok (pt, 40) ↔
      httpcrypt_decrypt body key = .ok pt) := by
  have hdl : (body.drop 24).length = body.length - 24 := List.length_drop 24 body
  have hsplit : secretbox_open key (body.take 24) (body.drop 24) =
      secretbox_openParts key (body.take 24) ((body.drop 24).take 16) (body.drop 40) := by
    rw [secretbox_open, if_neg (by omega), List.drop_drop]
  constructor
  · rw [httpcrypt_decrypt_offset, if_neg (by omega), hsplit]
  · intro pt
    rw [httpcrypt_decrypt_offset, if_neg (by omega), httpcrypt_decrypt, if_neg (by omega)]
    cases hspo : secretbox_open key (body.take 24) (body.drop 24) <;> simp

/-- Scalar multiplication of the example key pair, as a staging fact for the
witnesses (proved by evaluation). -/
theorem exScalarmult :
    rspamd_x25519_scalarmult (strBytes pkStr) exSk = .ok expectedPoint := by decide

/-- Key derivation on the example point, as a staging fact. -/
theorem exEcdh : rspamd_x25519_ecdh expectedPoint = expectedNm := by decide

/-- `exEnc` is the value produced by `encrypt_inplace` on the example inputs. -/
theorem exEncEq : encrypt_inplace exPt (strBytes pkStr) exSk exNonce = .ok exEnc := by
  simp only [encrypt_inplace, exScalarmult, exEcdh]
  decide

/-- `exOut` is the value produced by `httpcrypt_encrypt` on the example inputs. -/
theorem exOutEq :
    httpcrypt_encrypt exUrl exBody exHeaders (strBytes pkStr) exSk exNonce = .ok exOut := by
  have hpk : secretKeyPublic exSk = exPk := by decide
  simp only [httpcrypt_encrypt, encrypt_inplace, exScalarmult, exEcdh, hpk]
  decide

/-- Concrete instance of claim C1 at the repository's test key, an all-zero
secret and nonce, and the plaintext `[1, 2, 3]`. -/
theorem c1_roundtrip_witness :
    exNonce.length = 24 ∧ httpcrypt_decrypt exEnc.1 exEnc.2 = .ok exPt :=
  ⟨by decide, c1_roundtrip exPt (strBytes pkStr) exSk exNonce exEnc (by decide) exEncEq⟩

/-- Concrete instance of claim C2 at the same inputs. -/
theorem c2_layout_witness :
    ∃ tag ct, exEnc.1 = exNonce ++ tag ++ ct ∧ tag.length = 16 ∧ ct.length = exPt.length ∧
      tag = poly1305 ((xchachaKeystream exEnc.2 exNonce (32 + exPt.length)).take 32) ct :=
  c2_layout exPt (strBytes pkStr) exSk exNonce exEnc (by decide) exEncEq

/-- Concrete instance of claim C3: opening the example envelope through the
offset-returning decrypt yields the plaintext and the fixed offset 40. -/
theorem c3_split_offset_witness :
    httpcrypt_decrypt_offset exEnc.1 exEnc.2 = .ok (exPt, 40) :=
  ((c3_split_offset exEnc.1 exEnc.2 (by decide)).2 exPt).mpr (by decide)

/-- Claim C5 (counterexample): `"yy"` decodes without an invalid symbol but to
a single byte, and `rspamd_x25519_scalarmult` then panics on
`try_into().unwrap()` instead of returning the decode-error result. -/
theorem c5_counterexample :
    rspamd_x25519_scalarmult [121, 121] (List.replicate 32 0) = .panics ∧
    (Outcome.panics : Outcome (List Nat)) ≠
      .err (.EncryptionError "Base32 decode failed") := by
  constructor <;> decide

/-- Claim C5 (amended): a remote key whose decoding hits an invalid symbol
makes `rspamd_x25519_scalarmult` return the decode-error result; a remote key
that decodes cleanly to a length other than 32 bytes makes it panic rather
than return an error. -/
theorem c5_decode_errors (r sk : List Nat) :
    (b32decode r = none →
      rspamd_x25519_scalarmult r sk = .err (.EncryptionError "Base32 decode failed")) ∧
    (∀ bs, b32decode r = some bs → bs.length ≠ 32 →
      rspamd_x25519_scalarmult r sk = .panics) := by
  constructor
  · intro h; simp [rspamd_x25519_scalarmult, h]
  · intro bs h hlen; simp [rspamd_x25519_scalarmult, h, hlen]

/-- Concrete instance of the amended claim C5: the byte of `'l'` is not in the
protocol alphabet, so scalar multiplication fails with the decode error. -/
theorem c5_decode_errors_witness :
    rspamd_x25519_scalarmult [108] [] = .err (.EncryptionError "Base32 decode failed") :=
  (c5_decode_errors [108] []).1 (by decide)

/-- Claim C6: with an all-zero local secret and the fixed remote public key
string, scalar multiplication returns exactly `EXPECTED_POINT`, and the
HChaCha20-based derivation on that point returns exactly `EXPECTED_NM`. -/
theorem c6_interop_vectors :
    rspamd_x25519_scalarmult (strBytes pkStr) (List.replicate 32 0) = .ok expectedPoint ∧
    rspamd_x25519_ecdh expectedPoint = expectedNm := by
  constructor <;> decide

/-- Claim C9: `httpcrypt_decrypt` panics (out-of-range nonce slice) on every
body shorter than 24 bytes, and never panics once the body has at least 24. -/
theorem c9_short_input (body k : List Nat) :
    (body.length < 24 → httpcrypt_decrypt body k = .panics) ∧
    (24 ≤ body.length → httpcrypt_decrypt body k ≠ .panics) := by
  constructor
  · intro h; rw [httpcrypt_decrypt, if_pos h]
  · intro h
    rw [httpcrypt_decrypt, if_neg (by omega)]
    cases secretbox_open k (body.take 24) (body.drop 24) <;> simp

/-- Concrete instance of claim C9: the empty body panics. -/
theorem c9_short_input_witness : httpcrypt_decrypt [] [] = .panics :=
  (c9_short_input [] []).1 (by decide)

/-! ## Key-header lemmas (claim C7) -/

theorem b32alphabet_getD_ne (m : Nat) : b32alphabet.getD m 'y' ≠ '=' := by
  by_cases h : m < 32
  · interval_cases m <;> decide
  · rw [List.getD_eq_default]
    · decide
    · simp only [b32alphabet, List.length_cons, List.length_nil]
      omega

theorem b32EncodeAux_count (f : Nat) : ∀ n, (b32EncodeAux f n).count '=' = 0 := by
  induction f with
  | zero => intro n; rfl
  | succ f ih =>
      intro n
      rw [b32EncodeAux, List.count_cons, ih]
      have h : ¬ b32alphabet[n % 32]?.getD 'y' = '=' := by
        rw [← List.getD_eq_getElem?_getD]
        exact b32alphabet_getD_ne (n % 32)
      simp [h]

/-- Claim C7: for every remote key string that decodes and every base32-encoded
local public key, `make_key_header` returns base32 of the first 5 BLAKE2b
digest bytes of the decoded remote key, one `'='`, then the local key string
unchanged, and the result contains exactly one `'='`. -/
theorem c7_key_header (remote : String) (lb bs : List Nat)
    (h : b32decode (strBytes remote) = some bs) :
    make_key_header remote (b32encode lb) =
      .ok ⟨b32encodeChars ((blake2b bs).take 5) ++ '=' :: b32encodeChars lb⟩ ∧
    (b32encodeChars ((blake2b bs).take 5) ++ '=' :: b32encodeChars lb).count '=' = 1 := by
  constructor
  · simp [make_key_header, h, b32encode]
  · rw [List.count_append, List.count_cons]
    simp [b32encodeChars, b32EncodeAux_count]

/-- Concrete instance of claim C7 at the repository's test key and the
base32 encoding of an all-zero local public key. -/
theorem c7_key_header_witness :
    make_key_header pkStr (b32encode exSk) =
      .ok ⟨b32encodeChars ((blake2b
        [74, 139, 251, 143, 86, 217, 191, 197, 128, 88, 146, 147, 175, 70, 16, 62,
         113, 246, 138, 54, 38, 144, 32, 221, 196, 160, 151, 115, 72, 91, 95, 97]).take 5)
        ++ '=' :: b32encodeChars exSk⟩ ∧
    (b32encodeChars ((blake2b
        [74, 139, 251, 143, 86, 217, 191, 197, 128, 88, 146, 147, 175, 70, 16, 62,
         113, 246, 138, 54, 38, 144, 32, 221, 196, 160, 151, 115, 72, 91, 95, 97]).take 5)
        ++ '=' :: b32encodeChars exSk).count '=' = 1 :=
  c7_key_header pkStr exSk
    [74, 139, 251, 143, 86, 217, 191, 197, 128, 88, 146, 147, 175, 70, 16, 62,
     113, 246, 138, 54, 38, 144, 32, 221, 196, 160, 151, 115, 72, 91, 95, 97]
    (by decide)

/-- Claim C8: the plaintext sealed by `httpcrypt_encrypt` (observed by opening
the envelope with the returned secretbox) is exactly
`POST url HTTP/1.1\n`, one `name:value\n` line per header in caller order,
a blank line, then the raw body bytes. -/
theorem c8_inner_plaintext (url : String) (body : List Nat)
    (headers : List (List Nat × List Nat)) (pk sk nonce : List Nat)
    (out : HTTPCryptEncrypted) (hn : nonce.length = 24)
    (henc : httpcrypt_encrypt url body headers pk sk nonce = .ok out) :
    httpcrypt_decrypt out.body out.secretbox =
      .ok (strBytes "POST " ++ strBytes url ++ strBytes " HTTP/1.1\n"
        ++ headers.foldr (fun kv acc => kv.1 ++ 58 :: kv.2 ++ [10] ++ acc) []
        ++ [10] ++ body) := by
  simp only [httpcrypt_encrypt] at henc
  split at henc
  · exact absurd henc (by simp)
  · exact absurd henc (by simp)
  case _ dnm heq =>
    simp only [Outcome.ok.injEq] at henc
    have hb : out.body = dnm.1 := by rw [← henc]
    have hs : out.secretbox = dnm.2 := by rw [← henc]
    rw [hb, hs]
    exact encrypt_then_decrypt _ pk sk nonce dnm hn heq

/-- Concrete instance of claim C8 on the example request. -/
theorem c8_inner_plaintext_witness :
    httpcrypt_decrypt exOut.body exOut.secretbox =
      .ok (strBytes "POST " ++ strBytes exUrl ++ strBytes " HTTP/1.1\n"
        ++ exHeaders.foldr (fun kv acc => kv.1 ++ 58 :: kv.2 ++ [10] ++ acc) []
        ++ [10] ++ exBody) :=
  c8_inner_plaintext exUrl exBody exHeaders (strBytes pkStr) exSk exNonce exOut
    (by decide) exOutEq

/-! ## `EnvelopeData` lemmas (claim C10) -/

theorem countP_key_le_one (m : List (String × String)) (k : String)
    (h : (m.map Prod.fst).Nodup) : m.countP (fun p => p.1 == k) ≤ 1 := by
  have heq : m.countP (fun p => p.1 == k) = (m.map Prod.fst).count k := by
    rw [List.count, List.countP_map]
    rfl
  rw [heq]
  exact List.nodup_iff_count_le_one.mp h k

theorem hmInsert_keys_nodup (m : List (String × String)) (k v : String)
    (h : (m.map Prod.fst).Nodup) : ((hmInsert m k v).map Prod.fst).Nodup := by
  rw [hmInsert]
  split
  case isTrue hany =>
    have hkeys : (m.map (fun p => if p.1 == k then (k, v) else p)).map Prod.fst
        = m.map Prod.fst := by
      rw [List.map_map]
      apply List.map_congr_left
      intro p _
      by_cases hb : p.1 == k
      · simp [Function.comp, hb, (eq_of_beq hb).symm]
      · simp [Function.comp, hb]
    rw [hkeys]; exact h
  case isFalse hany =>
    rw [List.map_append]
    have hk : k ∉ m.map Prod.fst := by
      intro hmem
      rcases List.mem_map.mp hmem with ⟨p, hp, hfst⟩
      exact hany (List.any_eq_true.mpr ⟨p, hp, by simp [hfst]⟩)
    simp [List.nodup_append, h, hk]

theorem hmInsert_countP_self (m : List (String × String)) (k v : String)
    (h : (m.map Prod.fst).Nodup) :
    (hmInsert m k v).countP (fun p => p.1 == k) = 1 := by
  rw [hmInsert]
  split
  case isTrue hany =>
    have hcnt : m.countP (fun p => p.1 == k) = 1 := by
      have hle := countP_key_le_one m k h
      have hpos : 0 < m.countP (fun p => p.1 == k) := by
        rcases List.any_eq_true.mp hany with ⟨p, hp, hb⟩
        exact List.countP_pos_iff.mpr ⟨p, hp, hb⟩
      omega
    rw [List.countP_map]
    rw [List.countP_congr, hcnt]
    intro p _
    by_cases hb : p.1 == k <;> simp [Function.comp, hb]
  case isFalse hany =>
    rw [List.countP_append]
    have h0 : m.countP (fun p => p.1 == k) = 0 := by
      rw [List.countP_eq_zero]
      intro p hp hb
      exact hany (List.any_eq_true.mpr ⟨p, hp, hb⟩)
    simp [h0]

theorem foldl_rcpt_nodup (l : List String) : ∀ m : List (String × String),
    (m.map Prod.fst).Nodup →
    ((l.foldl (fun m r => hmInsert m "Rcpt" r) m).map Prod.fst).Nodup := by
  induction l with
  | nil => intro m h; exact h
  | cons r l ih => intro m h; exact ih _ (hmInsert_keys_nodup _ _ _ h)

theorem foldl_rcpt_countP_le (l : List String) : ∀ m : List (String × String),
    (m.map Prod.fst).Nodup →
    (l.foldl (fun m r => hmInsert m "Rcpt" r) m).countP (fun p => p.1 == "Rcpt") ≤ 1 := by
  induction l with
  | nil => intro m h; exact countP_key_le_one m _ h
  | cons r l ih => intro m h; exact ih _ (hmInsert_keys_nodup _ _ _ h)

theorem foldl_rcpt_countP_eq (l : List String) (hl : l ≠ []) :
    ∀ m : List (String × String), (m.map Prod.fst).Nodup →
    (l.foldl (fun m r => hmInsert m "Rcpt" r) m).countP (fun p => p.1 == "Rcpt") = 1 := by
  induction l with
  | nil => exact absurd rfl hl
  | cons r l ih =>
      intro m h
      cases l with
      | nil => exact hmInsert_countP_self _ _ _ h
      | cons r' l' => exact ih (by simp) _ (hmInsert_keys_nodup _ _ _ h)

theorem optInsert_nodup (m : List (String × String)) (k : String) (o : Option String)
    (h : (m.map Prod.fst).Nodup) : ((optInsert m k o).map Prod.fst).Nodup := by
  cases o
  · exact h
  · exact hmInsert_keys_nodup _ _ _ h

/-- Claim C10: the iterator of `EnvelopeData` yields at most one pair under
the key `"Rcpt"`, and when two or more recipients are supplied exactly one
survives (the others are silently dropped). -/
theorem c10_rcpt_collapse (e : EnvelopeData)
    (h : (e.additional_headers.map Prod.fst).Nodup) :
    e.into_iter.countP (fun p => p.1 == "Rcpt") ≤ 1 ∧
    (2 ≤ e.rcpt.length → e.into_iter.countP (fun p => p.1 == "Rcpt") = 1) := by
  have h6 : ((optInsert (optInsert (optInsert (optInsert (optInsert
      (optInsert e.additional_headers "From" e.from_) "IP" e.ip) "User" e.user)
      "Helo" e.helo) "Hostname" e.hostname) "File" e.file_path).map Prod.fst).Nodup :=
    optInsert_nodup _ _ _ (optInsert_nodup _ _ _ (optInsert_nodup _ _ _
      (optInsert_nodup _ _ _ (optInsert_nodup _ _ _ (optInsert_nodup _ _ _ h)))))
  constructor
  · exact foldl_rcpt_countP_le _ _ h6
  · intro h2
    apply foldl_rcpt_countP_eq _ _ _ h6
    intro hnil
    rw [hnil] at h2
    simp at h2

/-- Concrete instance of claim C10: an envelope with two recipients emits
exactly one `Rcpt` header. -/
theorem c10_rcpt_collapse_witness :
    exEnvelope.into_iter.countP (fun p => p.1 == "Rcpt") ≤ 1 ∧
    (2 ≤ exEnvelope.rcpt.length →
      exEnvelope.into_iter.countP (fun p => p.1 == "Rcpt") = 1) :=
  c10_rcpt_collapse exEnvelope (by decide)

end RspamdClient
